import Mathlib

/-!
Shallow embedding of `main.go` from the `lexer` repository: a lexer for
arithmetic expressions, a recursive-descent parser with two precedence
tiers, a fully parenthesized string renderer, and a tree-walking
evaluator, together with the top-level driver.

Modelling conventions:
* Go's `int` is taken to be 64-bit; arithmetic wraps into
  `[-2^63, 2^63)` via `wrap64`, and `strconv.Atoi` clamps to
  `MaxInt64` on range overflow.
* The `bufio.Reader` is modelled by the unconsumed suffix of the input
  (`rest`) plus the one-slot pushback validity flag (`last`):
  `ReadRune` records the rune it returned, a failed `ReadRune` (EOF)
  clears the slot, and `UnreadRune` succeeds exactly when the slot is
  full, emptying it.  This mirrors the documented contract: "If the most
  recent method called on the Reader was not a successful ReadRune,
  UnreadRune returns an error."
* `log.Fatal` / `log.Fatalf` abort the process before anything is
  printed; they are modelled by the `Fatal` error of an `Except`.
* Loops (`for` in `Lex`, `lexInt`, and the two parser precedence loops)
  are modelled with an explicit fuel parameter; running out of fuel
  yields the distinguished error `Fatal.outOfFuel`, which never occurs
  when the fuel exceeds the input length (the top-level driver passes
  `4 * length + 16`).
* `unicode.IsDigit` / `unicode.IsSpace` are modelled on their
  ASCII/Latin-1 fragment, which covers every input considered here.
-/

/-- Go: `type Token int`; only the eight constants below occur. -/
abbrev Token := Nat

def EOF : Token := 0

def ILLEGAL : Token := 1

def IDENT : Token := 2

def INT : Token := 3

def ADD : Token := 4

def SUB : Token := 5

def MUL : Token := 6

def DIV : Token := 7

/-- Go: the `tokens` display-name table, indexed by token constant. -/
def tokens : List String := ["EOF", "ILLEGAL", "IDENT", "INT", "+", "-", "*", "/"]

/-- Go: `type Position struct { line, column int }`. -/
structure Position where
  line : Int
  column : Int
deriving DecidableEq, Repr

/-- Fatal conditions: the `log.Fatal` aborts of the lexer/parser
(`bufio.ErrInvalidUnreadRune` from `backup`, the unexpected-token abort
of `parsePrimaryExpr`), plus the fuel-exhaustion modelling artifact. -/
inductive Fatal where
  | invalidUnreadRune
  | unexpectedToken (tok : Token)
  | outOfFuel
deriving DecidableEq, Repr

/-- Go: `type Lexer struct { pos Position; reader *bufio.Reader }`.
The reader is modelled by the unconsumed input `rest` and the
single-slot `UnreadRune` validity state `last` (see module docstring). -/
structure Lexer where
  rest : List Char
  last : Option Char
  pos : Position
deriving DecidableEq, Repr

/-- Go: `l.reader.ReadRune()`: returns the next rune (advancing) and
marks the pushback slot valid, or reports end-of-input (clearing the
pushback slot, so that a subsequent `UnreadRune` fails). -/
def Lexer.readRune (l : Lexer) : Option Char × Lexer :=
  match l.rest with
  | [] => (none, { l with last := none })
  | c :: t => (some c, { rest := t, last := some c, pos := l.pos })

/-- Go: `Lexer.backup`: `UnreadRune` then `l.pos.column--`.  When the
most recent reader operation was not a successful `ReadRune`, the
`UnreadRune` error is passed to `log.Fatal`, aborting the program. -/
def Lexer.backup (l : Lexer) : Except Fatal Lexer :=
  match l.last with
  | none => .error .invalidUnreadRune
  | some c => .ok { rest := c :: l.rest, last := none,
                    pos := { l.pos with column := l.pos.column - 1 } }

/-- Go: `Lexer.resetPosition`: `l.pos.line++; l.pos.column = 0`. -/
def Lexer.resetPosition (l : Lexer) : Lexer :=
  { l with pos := { line := l.pos.line + 1, column := 0 } }

/-- ASCII fragment of Go `unicode.IsDigit` (the inputs considered here
are ASCII; the full table additionally has non-Latin decimal digits). -/
def unicodeIsDigit (c : Char) : Bool := c.isDigit

/-- Latin-1 fragment of Go `unicode.IsSpace`:
`\t \n \v \f \r space U+0085 U+00A0`. -/
def unicodeIsSpace (c : Char) : Bool :=
  c == ' ' || c == '\t' || c == '\n' || c == '\x0B' || c == '\x0C' ||
  c == '\x0D' || c == '\x85' || c == '\xA0'

/-- Go: `Lexer.lexInt`: greedily consumes a run of digit runes
(`l.pos.column++` per rune), pushing the first non-digit back via
`backup` (or stopping cleanly at end-of-input), and returns the
accumulated literal. -/
def Lexer.lexInt (fuel : Nat) (l : Lexer) : Except Fatal (List Char × Lexer) :=
  match fuel with
  | 0 => .error .outOfFuel
  | f + 1 =>
    match l.readRune with
    | (none, l') => .ok ([], l')
    | (some r, l') =>
      let l₁ : Lexer := { l' with pos := { l'.pos with column := l'.pos.column + 1 } }
      if unicodeIsDigit r then
        match Lexer.lexInt f l₁ with
        | .error e => .error e
        | .ok (lit, l₂) => .ok (r :: lit, l₂)
      else
        match l₁.backup with
        | .error e => .error e
        | .ok l₂ => .ok ([], l₂)

/-- Go: `Lexer.Lex`: skips whitespace (resetting the position on
newline), emits single-character operator tokens, defers to `lexInt`
for digits (after pushing the digit back), emits `ILLEGAL` for any
other rune, and `EOF` at clean end-of-input. -/
def Lexer.Lex (fuel : Nat) (l : Lexer) : Except Fatal (Token × List Char × Lexer) :=
  match fuel with
  | 0 => .error .outOfFuel
  | f + 1 =>
    match l.readRune with
    | (none, l') => .ok (EOF, [], l')
    | (some r, l') =>
      let l₁ : Lexer := { l' with pos := { l'.pos with column := l'.pos.column + 1 } }
      if r = '\n' then Lexer.Lex f l₁.resetPosition
      else if r = '+' then .ok (ADD, ['+'], l₁)
      else if r = '-' then .ok (SUB, ['-'], l₁)
      else if r = '*' then .ok (MUL, ['*'], l₁)
      else if r = '/' then .ok (DIV, ['/'], l₁)
      else if unicodeIsSpace r then Lexer.Lex f l₁
      else if unicodeIsDigit r then
        match l₁.backup with
        | .error e => .error e
        | .ok l₂ =>
          match Lexer.lexInt f l₂ with
          | .error e => .error e
          | .ok (lit, l₃) => .ok (INT, lit, l₃)
      else .ok (ILLEGAL, [r], l₁)

/-- Go: `NewLexer`: position starts at line 1, column 0. -/
def NewLexer (input : List Char) : Lexer :=
  { rest := input, last := none, pos := { line := 1, column := 0 } }

/-- Go AST: the two `Expression` implementations, `IntegerLiteral`
(`Value int`, `Position`) and `BinaryExpression`
(`Left`, `Op Token`, `Right`, `Position`). -/
inductive Expression where
  | IntegerLiteral (value : Int) (position : Position)
  | BinaryExpression (left : Expression) (op : Token) (right : Expression) (position : Position)
deriving DecidableEq, Repr

/-- Go: the `Pos()` method of both node kinds. -/
def Expression.Pos : Expression → Position
  | .IntegerLiteral _ p => p
  | .BinaryExpression _ _ _ p => p

/-- Go: the `String()` methods: a literal renders via `strconv.Itoa`,
a binary node as `(<left> <op> <right>)` using the `tokens` table. -/
def Expression.render : Expression → String
  | .IntegerLiteral v _ => toString v
  | .BinaryExpression l op r _ =>
      "(" ++ Expression.render l ++ " " ++ tokens.getD op "" ++ " " ++ Expression.render r ++ ")"

/-- Largest value of Go's 64-bit `int`. -/
def maxInt64 : Int := 2 ^ 63 - 1

/-- Reduction of an unbounded integer into Go's 64-bit `int`
(two's-complement wraparound). -/
def wrap64 (x : Int) : Int := (x + 2 ^ 63) % 2 ^ 64 - 2 ^ 63

/-- Decimal value of a digit string. -/
def digitsVal (lit : List Char) : Nat :=
  lit.foldl (fun n c => 10 * n + (c.toNat - 48)) 0

/-- Go `strconv.Atoi` (= `ParseInt(s, 10, 0)` with 64-bit `int`),
restricted to the sign-free strings the lexer can produce: a non-empty
all-digit string yields its decimal value, clamped to `MaxInt64` with a
range error when it exceeds it; anything else yields 0 with a syntax
error. -/
def Atoi (lit : List Char) : Int × Option String :=
  if lit = [] then (0, some "invalid syntax")
  else if lit.all unicodeIsDigit then
    if (digitsVal lit : Int) ≤ maxInt64 then ((digitsVal lit : Int), none)
    else (maxInt64, some "value out of range")
  else (0, some "invalid syntax")

/-- Go: `parsePrimaryExpr`: expects an `INT` token, converting its
literal with `strconv.Atoi` and discarding the conversion error; any
other token aborts via `log.Fatalf("Unexpected token: ...")`. -/
def parsePrimaryExpr (fuel : Nat) (l : Lexer) : Except Fatal (Expression × Lexer) :=
  match Lexer.Lex fuel l with
  | .error e => .error e
  | .ok (tok, lit, l') =>
    if tok = INT then
      .ok (.IntegerLiteral (Atoi lit).1 { line := l'.pos.line, column := l'.pos.column }, l')
    else .error (.unexpectedToken tok)

/-- Go: the `for` loop of `parseMulDivExpr`: peek a token; unless it is
`*` or `/`, push it back and return the accumulated expression;
otherwise parse another primary and fold it in as the right child. -/
def parseMulDivLoop (fuel : Nat) (left : Expression) (l : Lexer) :
    Except Fatal (Expression × Lexer) :=
  match fuel with
  | 0 => .error .outOfFuel
  | f + 1 =>
    match Lexer.Lex f l with
    | .error e => .error e
    | .ok (tok, _, l₁) =>
      if tok ≠ MUL ∧ tok ≠ DIV then
        match l₁.backup with
        | .error e => .error e
        | .ok l₂ => .ok (left, l₂)
      else
        match parsePrimaryExpr f l₁ with
        | .error e => .error e
        | .ok (right, l₂) =>
          parseMulDivLoop f (.BinaryExpression left tok right left.Pos) l₂

/-- Go: `parseMulDivExpr`: one primary, then the `*`/`/` loop. -/
def parseMulDivExpr (fuel : Nat) (l : Lexer) : Except Fatal (Expression × Lexer) :=
  match fuel with
  | 0 => .error .outOfFuel
  | f + 1 =>
    match parsePrimaryExpr f l with
    | .error e => .error e
    | .ok (left, l₁) => parseMulDivLoop f left l₁

/-- Go: the `for` loop of `parseAddSubExpr`: peek a token; unless it is
`+` or `-`, push it back and return the accumulated expression;
otherwise parse another muldiv and fold it in as the right child. -/
def parseAddSubLoop (fuel : Nat) (left : Expression) (l : Lexer) :
    Except Fatal (Expression × Lexer) :=
  match fuel with
  | 0 => .error .outOfFuel
  | f + 1 =>
    match Lexer.Lex f l with
    | .error e => .error e
    | .ok (tok, _, l₁) =>
      if tok ≠ ADD ∧ tok ≠ SUB then
        match l₁.backup with
        | .error e => .error e
        | .ok l₂ => .ok (left, l₂)
      else
        match parseMulDivExpr f l₁ with
        | .error e => .error e
        | .ok (right, l₂) =>
          parseAddSubLoop f (.BinaryExpression left tok right left.Pos) l₂

/-- Go: `parseAddSubExpr`: one muldiv, then the `+`/`-` loop. -/
def parseAddSubExpr (fuel : Nat) (l : Lexer) : Except Fatal (Expression × Lexer) :=
  match fuel with
  | 0 => .error .outOfFuel
  | f + 1 =>
    match parseMulDivExpr f l with
    | .error e => .error e
    | .ok (left, l₁) => parseAddSubLoop f left l₁

/-- Go: `parseExpression(l) = parseAddSubExpr(l)`. -/
def parseExpression (fuel : Nat) (l : Lexer) : Except Fatal (Expression × Lexer) :=
  parseAddSubExpr fuel l

/-- Go: `evaluateExpression`: recursive reduction, left child first,
propagating the first error; `+ - *` use native 64-bit arithmetic,
`/` guards against a zero right operand; unrecognized operators fall to
the "unknown operator" branch. -/
def evaluateExpression : Expression → Except String Int
  | .IntegerLiteral v _ => .ok v
  | .BinaryExpression lhs op rhs _ =>
    match evaluateExpression lhs with
    | .error e => .error e
    | .ok left =>
      match evaluateExpression rhs with
      | .error e => .error e
      | .ok right =>
        if op = ADD then .ok (wrap64 (left + right))
        else if op = SUB then .ok (wrap64 (left - right))
        else if op = MUL then .ok (wrap64 (left * right))
        else if op = DIV then
          if right = 0 then .error "division by zero"
          else .ok (wrap64 (Int.tdiv left right))
        else .error "unknown operator"

/-- Observable outcome of one run of `main`: either a fatal abort
during lexing/parsing (nothing printed), or the rendering printed and
then a fatal evaluation error, or the rendering and the result. -/
inductive RunResult where
  | fatal (e : Fatal)
  | evalFatal (line1 : String) (msg : String)
  | success (line1 : String) (result : Int)
deriving DecidableEq, Repr

/-- Go: `main`: lex/parse the whole input, print the rendered tree,
evaluate, print the result (aborting on an evaluation error). -/
def run (input : List Char) : RunResult :=
  match parseExpression (4 * input.length + 16) (NewLexer input) with
  | .error e => .fatal e
  | .ok (expr, _) =>
    match evaluateExpression expr with
    | .error msg => .evalFatal expr.render msg
    | .ok result => .success expr.render result

/-- Operator-tag invariant of parser-produced ASTs: every binary node
is tagged with one of the four arithmetic operators. -/
def OpsValid : Expression → Bool
  | .IntegerLiteral _ _ => true
  | .BinaryExpression l op r _ =>
    (op == ADD || op == SUB || op == MUL || op == DIV) && OpsValid l && OpsValid r

/-- Forgets the source positions recorded in a tree, for comparing
parses of differently spaced inputs. -/
def erasePositions : Expression → Expression
  | .IntegerLiteral v _ => .IntegerLiteral v { line := 0, column := 0 }
  | .BinaryExpression l op r _ =>
    .BinaryExpression (erasePositions l) op (erasePositions r) { line := 0, column := 0 }

/-- C1: the claim says that on a well-formed expression followed by
end-of-input the precedence loops push the peeked end-of-input token
back and the program prints the rendering and the result.  In fact the
pushback of the end-of-input token calls `UnreadRune` right after an
unsuccessful `ReadRune`, which fails, and `backup` aborts via
`log.Fatal`: on input `"2+3"` the run dies printing nothing.  (Only
when the expression is followed by an unconsumed illegal character, as
in `"2+3&"`, does the pushback succeed and the program print the two
claimed lines.) -/
theorem run_wellformed_input_aborts_on_eof_pushback :
    run "2+3".toList = .fatal .invalidUnreadRune ∧
    run "2+3&".toList = .success "(2 + 3)" 5 :=
  ⟨rfl, rfl⟩

/-- C2: the claim says an input with an illegal character such as
`"3&4"` must fail with an unexpected-token failure and never complete
with a silent partial parse.  In fact both precedence loops merely push
the `ILLEGAL` token back and return the accumulated expression, so on
`"3&4"` the program parses the leaf `3`, prints `3`, and prints the
result `3`: a silent partial parse with no failure at all. -/
theorem run_illegal_char_silent_partial_parse :
    run "3&4".toList = .success "3" 3 :=
  rfl

/-- C3: the claim says `"2+3*4"` parses to `(2 + (3 * 4))` and
evaluates to `14`, and `"2*3+4"` to `((2 * 3) + 4)` and `10`.  In fact
both runs abort with the invalid end-of-input pushback before
returning any tree.  The precedence structure itself is as claimed:
with a trailing illegal character keeping the pushback legal
(`"2+3*4&"`, `"2*3+4&"`) the program prints exactly the claimed
renderings and results. -/
theorem precedence_inputs_abort_at_eof :
    run "2+3*4".toList = .fatal .invalidUnreadRune ∧
    run "2*3+4".toList = .fatal .invalidUnreadRune ∧
    run "2+3*4&".toList = .success "(2 + (3 * 4))" 14 ∧
    run "2*3+4&".toList = .success "((2 * 3) + 4)" 10 :=
  ⟨rfl, rfl, rfl, rfl⟩

/-- C4: the claim says `"1-2-3"` parses to `((1 - 2) - 3)`.  In fact
that run aborts with the invalid end-of-input pushback before
returning any tree.  The left fold itself is as claimed: with a
trailing illegal character keeping the pushback legal (`"1-2-3&"`) the
program prints the left-associated rendering `((1 - 2) - 3)` and the
result `-4`, not the right-associated `1 - (2 - 3) = 2`. -/
theorem leftassoc_input_aborts_at_eof :
    run "1-2-3".toList = .fatal .invalidUnreadRune ∧
    run "1-2-3&".toList = .success "((1 - 2) - 3)" (-4) :=
  ⟨rfl, rfl⟩

/-- C8: the claim says `"1 +\n2"` parses to the same AST as `"1+2"`.
In fact both runs abort with the invalid end-of-input pushback and
return no AST at all.  With a trailing illegal character keeping the
pushback legal, the two parses agree exactly up to the recorded
line/column positions (and differ in them), as the claim's
parenthetical predicts. -/
theorem whitespace_inputs_abort_and_agree_modulo_positions :
    run "1 +\n2".toList = .fatal .invalidUnreadRune ∧
    run "1+2".toList = .fatal .invalidUnreadRune ∧
    parseExpression 44 (NewLexer "1 +\n2&".toList) =
      .ok (.BinaryExpression (.IntegerLiteral 1 ⟨1, 1⟩) ADD (.IntegerLiteral 2 ⟨2, 1⟩) ⟨1, 1⟩,
           ⟨['&'], none, ⟨2, 1⟩⟩) ∧
    parseExpression 44 (NewLexer "1+2&".toList) =
      .ok (.BinaryExpression (.IntegerLiteral 1 ⟨1, 1⟩) ADD (.IntegerLiteral 2 ⟨1, 3⟩) ⟨1, 1⟩,
           ⟨['&'], none, ⟨1, 3⟩⟩) ∧
    erasePositions (.BinaryExpression (.IntegerLiteral 1 ⟨1, 1⟩) ADD (.IntegerLiteral 2 ⟨2, 1⟩) ⟨1, 1⟩) =
      erasePositions (.BinaryExpression (.IntegerLiteral 1 ⟨1, 1⟩) ADD (.IntegerLiteral 2 ⟨1, 3⟩) ⟨1, 1⟩) ∧
    (Expression.BinaryExpression (.IntegerLiteral 1 ⟨1, 1⟩) ADD (.IntegerLiteral 2 ⟨2, 1⟩) ⟨1, 1⟩) ≠
      (Expression.BinaryExpression (.IntegerLiteral 1 ⟨1, 1⟩) ADD (.IntegerLiteral 2 ⟨1, 3⟩) ⟨1, 1⟩) :=
  ⟨rfl, rfl, rfl, rfl, rfl, by decide⟩

/-- C6 counterexample: the evaluator does not always return the
truncating integer quotient: at the one 64-bit overflow case, left
operand `-2^63` and right operand `-1` (both representable, right
operand non-zero), Go's wraparound division returns `-2^63` while the
truncating quotient is `2^63`. -/
theorem evaluate_div_not_truncating_at_min_int :
    evaluateExpression
      (.BinaryExpression (.IntegerLiteral (-(2 ^ 63)) ⟨1, 1⟩) DIV
        (.IntegerLiteral (-1) ⟨1, 3⟩) ⟨1, 1⟩) = .ok (-(2 ^ 63)) ∧
    Int.tdiv (-(2 ^ 63)) (-1) = 2 ^ 63 ∧
    ((-1 : Int) ≠ 0) ∧
    ((-(2 ^ 63) : Int) ≠ 2 ^ 63) :=
  ⟨rfl, rfl, by decide, by decide⟩

/-- C6 (amended): for every binary node with the divide operator whose
operands evaluate to `a` and `b`, the evaluator returns the explicit
"division by zero" failure when `b = 0`, and otherwise the truncating
quotient reduced into the 64-bit signed range (which equals the
truncating quotient except in the single overflow case
`a = -2^63, b = -1`). -/
theorem evaluate_div_wrapped_quotient_or_div_zero
    (lhs rhs : Expression) (p : Position) (a b : Int)
    (hl : evaluateExpression lhs = .ok a) (hr : evaluateExpression rhs = .ok b) :
    (b = 0 → evaluateExpression (.BinaryExpression lhs DIV rhs p) = .error "division by zero") ∧
    (b ≠ 0 → evaluateExpression (.BinaryExpression lhs DIV rhs p) = .ok (wrap64 (Int.tdiv a b))) := by
  constructor
  · intro hb
    simp [evaluateExpression, hl, hr, hb, DIV, ADD, SUB, MUL]
  · intro hb
    simp [evaluateExpression, hl, hr, hb, DIV, ADD, SUB, MUL]

/-- C6 witness: `(7 / 2)` evaluates to the truncated `3`, and `(5 / 0)`
to the division-by-zero failure. -/
theorem evaluate_div_wrapped_quotient_or_div_zero_witness :
    evaluateExpression
      (.BinaryExpression (.IntegerLiteral 7 ⟨1, 1⟩) DIV (.IntegerLiteral 2 ⟨1, 3⟩) ⟨1, 1⟩) = .ok 3 ∧
    evaluateExpression
      (.BinaryExpression (.IntegerLiteral 5 ⟨1, 1⟩) DIV (.IntegerLiteral 0 ⟨1, 3⟩) ⟨1, 1⟩) =
      .error "division by zero" := by
  constructor
  · have h := (evaluate_div_wrapped_quotient_or_div_zero
      (.IntegerLiteral 7 ⟨1, 1⟩) (.IntegerLiteral 2 ⟨1, 3⟩) ⟨1, 1⟩ 7 2 rfl rfl).2 (by decide)
    rw [h]; rfl
  · exact (evaluate_div_wrapped_quotient_or_div_zero
      (.IntegerLiteral 5 ⟨1, 1⟩) (.IntegerLiteral 0 ⟨1, 3⟩) ⟨1, 1⟩ 5 0 rfl rfl).1 rfl

/-- C7: evaluation of a binary node short-circuits on a failing left
child: whenever the left subtree evaluates to an error, the whole node
evaluates to that very error, whatever the right subtree is (so the
right subtree is never evaluated and cannot influence the result). -/
theorem evaluate_short_circuits_on_left_error
    (lhs rhs : Expression) (op : Token) (p : Position) (msg : String)
    (h : evaluateExpression lhs = .error msg) :
    evaluateExpression (.BinaryExpression lhs op rhs p) = .error msg := by
  simp [evaluateExpression, h]

/-- C7 witness: `((1 / 0) + 5)` evaluates to the division-by-zero
error of its left subtree. -/
theorem evaluate_short_circuits_on_left_error_witness :
    evaluateExpression
      (.BinaryExpression
        (.BinaryExpression (.IntegerLiteral 1 ⟨1, 1⟩) DIV (.IntegerLiteral 0 ⟨1, 3⟩) ⟨1, 1⟩)
        ADD (.IntegerLiteral 5 ⟨1, 5⟩) ⟨1, 1⟩) = .error "division by zero" :=
  evaluate_short_circuits_on_left_error
    (.BinaryExpression (.IntegerLiteral 1 ⟨1, 1⟩) DIV (.IntegerLiteral 0 ⟨1, 3⟩) ⟨1, 1⟩)
    (.IntegerLiteral 5 ⟨1, 5⟩) ADD ⟨1, 1⟩ "division by zero" rfl

/-- Full characterization of `lexInt` (given enough fuel): it returns
the maximal digit prefix of the remaining input, leaves exactly the
rest of the input unconsumed with the pushback slot empty, and advances
the column by the number of digits consumed. -/
theorem lexInt_eq (fuel : Nat) : ∀ (l : Lexer), l.rest.length < fuel →
    Lexer.lexInt fuel l = .ok (l.rest.takeWhile unicodeIsDigit,
      { rest := l.rest.dropWhile unicodeIsDigit, last := none,
        pos := { line := l.pos.line,
                 column := l.pos.column + (l.rest.takeWhile unicodeIsDigit).length } }) := by
  induction fuel with
  | zero => intro l h; exact absurd h (Nat.not_lt_zero _)
  | succ f ih =>
    intro l h
    obtain ⟨rest, lastc, pos⟩ := l
    obtain ⟨line, col⟩ := pos
    cases rest with
    | nil => simp [Lexer.lexInt, Lexer.readRune]
    | cons c t =>
      have h' : t.length < f := by simp at h; omega
      by_cases hd : unicodeIsDigit c
      · have ihh := ih ⟨t, some c, ⟨line, col + 1⟩⟩ h'
        simp only [Lexer.lexInt, Lexer.readRune, hd, if_true]
        rw [ihh]
        simp [List.takeWhile_cons, List.dropWhile_cons, hd]
        omega
      · simp [Lexer.lexInt, Lexer.readRune, hd, Lexer.backup,
              List.takeWhile_cons, List.dropWhile_cons]

/-- Every element of a `takeWhile` satisfies the predicate. -/
theorem mem_takeWhile_sat {p : Char → Bool} :
    ∀ (xs : List Char) (d : Char), d ∈ xs.takeWhile p → p d = true := by
  intro xs
  induction xs with
  | nil => intro d hd; simp [List.takeWhile] at hd
  | cons c t ih =>
    intro d hd
    by_cases hc : p c
    · rw [List.takeWhile_cons_of_pos hc] at hd
      rcases List.mem_cons.mp hd with h1 | h2
      · rw [h1]; exact hc
      · exact ih d h2
    · rw [List.takeWhile_cons_of_neg (by simpa using hc)] at hd
      exact absurd hd (List.not_mem_nil d)

/-- The head of a `dropWhile` fails the predicate. -/
theorem head_dropWhile_not {p : Char → Bool} :
    ∀ (xs : List Char) (d : Char) (t' : List Char), xs.dropWhile p = d :: t' → p d = false := by
  intro xs
  induction xs with
  | nil => intro d t' hd; simp [List.dropWhile] at hd
  | cons c t ih =>
    intro d t' hd
    by_cases hc : p c
    · rw [List.dropWhile_cons_of_pos hc] at hd
      exact ih d t' hd
    · rw [List.dropWhile_cons_of_neg (by simpa using hc)] at hd
      cases hd
      simpa using hc

/-- C5: when the cursor stands at a digit (and the fuel covers the
remaining input), `lexInt` produces exactly the maximal contiguous
digit run starting at the cursor — every character of the literal is a
digit, and the input resumes at the first non-digit character (or at
end-of-input), i.e. the unconsumed remainder is the corresponding
`dropWhile`, whose head (if any) is a non-digit. -/
theorem lexInt_scans_maximal_digit_run (fuel : Nat) (l : Lexer) (c : Char) (t : List Char)
    (hrest : l.rest = c :: t) (hc : unicodeIsDigit c = true) (hfuel : l.rest.length < fuel) :
    Lexer.lexInt fuel l = .ok (l.rest.takeWhile unicodeIsDigit,
      { rest := l.rest.dropWhile unicodeIsDigit, last := none,
        pos := { line := l.pos.line,
                 column := l.pos.column + (l.rest.takeWhile unicodeIsDigit).length } }) ∧
    l.rest.takeWhile unicodeIsDigit ≠ [] ∧
    (∀ d ∈ l.rest.takeWhile unicodeIsDigit, unicodeIsDigit d = true) ∧
    (∀ d t', l.rest.dropWhile unicodeIsDigit = d :: t' → unicodeIsDigit d = false) ∧
    l.rest = l.rest.takeWhile unicodeIsDigit ++ l.rest.dropWhile unicodeIsDigit := by
  refine ⟨lexInt_eq fuel l hfuel, ?_, ?_, ?_, ?_⟩
  · rw [hrest, List.takeWhile_cons_of_pos hc]
    exact List.cons_ne_nil c _
  · intro d hd; exact mem_takeWhile_sat l.rest d hd
  · intro d t' hd; exact head_dropWhile_not l.rest d t' hd
  · exact (List.takeWhile_append_dropWhile unicodeIsDigit l.rest).symm

/-- C5 witness: on the input `12a4` the scan returns the literal `12`
and stops at the `a`, two columns to the right. -/
theorem lexInt_scans_maximal_digit_run_witness :
    Lexer.lexInt 6 { rest := ['1', '2', 'a', '4'], last := none, pos := { line := 1, column := 0 } } =
      .ok (['1', '2'], { rest := ['a', '4'], last := none, pos := { line := 1, column := 2 } }) := by
  have h := (lexInt_scans_maximal_digit_run 6
    { rest := ['1', '2', 'a', '4'], last := none, pos := { line := 1, column := 0 } }
    '1' ['2', 'a', '4'] rfl (by decide) (by decide)).1
  simpa using h
/-- On an AST whose binary nodes all carry one of the four arithmetic
operators, the evaluator can only fail with "division by zero": the
"unknown operator" branch (and, the node type being a closed sum, the
"unknown expression type" branch) is unreachable. -/
theorem OpsValid_eval : ∀ (e : Expression), OpsValid e = true →
    ∀ msg, evaluateExpression e = .error msg → msg = "division by zero" := by
  intro e
  induction e with
  | IntegerLiteral v p => intro _ msg h; simp [evaluateExpression] at h
  | BinaryExpression lch op rch p ihl ihr =>
    intro he msg h
    simp only [OpsValid, Bool.and_eq_true, Bool.or_eq_true, beq_iff_eq] at he
    obtain ⟨⟨hop, hl⟩, hr⟩ := he
    simp only [evaluateExpression] at h
    cases hL : evaluateExpression lch with
    | error m =>
      rw [hL] at h
      simp at h
      subst h
      exact ihl hl _ hL
    | ok a =>
      rw [hL] at h
      cases hR : evaluateExpression rch with
      | error m =>
        rw [hR] at h
        simp at h
        subst h
        exact ihr hr _ hR
      | ok b =>
        rw [hR] at h
        rcases hop with ((h4 | h5) | h6) | h7
        · subst h4; simp [ADD, SUB, MUL, DIV] at h
        · subst h5; simp [ADD, SUB, MUL, DIV] at h
        · subst h6; simp [ADD, SUB, MUL, DIV] at h
        · subst h7
          simp only [ADD, SUB, MUL, DIV] at h
          norm_num at h
          by_cases hb : b = 0
          · rw [if_pos hb] at h
            simp at h
            exact h.symm
          · rw [if_neg hb] at h
            simp at h

/-- A successful `parsePrimaryExpr` returns an integer literal, which
trivially satisfies the operator-tag invariant. -/
theorem OpsValid_parsePrimary (fuel : Nat) (l : Lexer) (e : Expression) (l' : Lexer)
    (h : parsePrimaryExpr fuel l = .ok (e, l')) : OpsValid e = true := by
  unfold parsePrimaryExpr at h
  split at h
  · simp at h
  · split at h
    · simp at h
      obtain ⟨he, -⟩ := h
      subst he
      rfl
    · simp at h

/-- The `*`/`/` loop preserves the operator-tag invariant: it only
folds in `MUL` or `DIV` nodes over primaries. -/
theorem OpsValid_parseMulDivLoop :
    ∀ (fuel : Nat) (left : Expression) (l : Lexer) (e : Expression) (l' : Lexer),
      OpsValid left = true → parseMulDivLoop fuel left l = .ok (e, l') → OpsValid e = true := by
  intro fuel
  induction fuel with
  | zero => intro left l e l' _ h; simp [parseMulDivLoop] at h
  | succ f ih =>
    intro left l e l' hleft h
    cases hL : Lexer.Lex f l with
    | error err => simp [parseMulDivLoop, hL] at h
    | ok v =>
      obtain ⟨tok, lit, l₁⟩ := v
      simp only [parseMulDivLoop, hL] at h
      by_cases hc : tok ≠ MUL ∧ tok ≠ DIV
      · rw [if_pos hc] at h
        cases hb : Lexer.backup l₁ with
        | error err => rw [hb] at h; simp at h
        | ok l₂ =>
          rw [hb] at h
          simp at h
          obtain ⟨he, -⟩ := h
          subst he
          exact hleft
      · rw [if_neg hc] at h
        cases hp : parsePrimaryExpr f l₁ with
        | error err => rw [hp] at h; simp at h
        | ok v2 =>
          obtain ⟨right, l₂⟩ := v2
          rw [hp] at h
          simp only [] at h
          refine ih (.BinaryExpression left tok right left.Pos) l₂ e l' ?_ h
          have hright := OpsValid_parsePrimary f l₁ right l₂ hp
          push_neg at hc
          simp only [OpsValid, Bool.and_eq_true, Bool.or_eq_true, beq_iff_eq]
          refine ⟨⟨?_, hleft⟩, hright⟩
          by_cases h1 : tok = MUL
          · exact Or.inl (Or.inr h1)
          · exact Or.inr (hc h1)

/-- A successful `parseMulDivExpr` satisfies the operator-tag
invariant. -/
theorem OpsValid_parseMulDivExpr (fuel : Nat) (l : Lexer) (e : Expression) (l' : Lexer)
    (h : parseMulDivExpr fuel l = .ok (e, l')) : OpsValid e = true := by
  cases fuel with
  | zero => simp [parseMulDivExpr] at h
  | succ f =>
    cases hp : parsePrimaryExpr f l with
    | error err => simp [parseMulDivExpr, hp] at h
    | ok v =>
      obtain ⟨left, l₁⟩ := v
      simp only [parseMulDivExpr, hp] at h
      exact OpsValid_parseMulDivLoop f left l₁ e l' (OpsValid_parsePrimary f l left l₁ hp) h

/-- The `+`/`-` loop preserves the operator-tag invariant: it only
folds in `ADD` or `SUB` nodes over muldiv subtrees. -/
theorem OpsValid_parseAddSubLoop :
    ∀ (fuel : Nat) (left : Expression) (l : Lexer) (e : Expression) (l' : Lexer),
      OpsValid left = true → parseAddSubLoop fuel left l = .ok (e, l') → OpsValid e = true := by
  intro fuel
  induction fuel with
  | zero => intro left l e l' _ h; simp [parseAddSubLoop] at h
  | succ f ih =>
    intro left l e l' hleft h
    cases hL : Lexer.Lex f l with
    | error err => simp [parseAddSubLoop, hL] at h
    | ok v =>
      obtain ⟨tok, lit, l₁⟩ := v
      simp only [parseAddSubLoop, hL] at h
      by_cases hc : tok ≠ ADD ∧ tok ≠ SUB
      · rw [if_pos hc] at h
        cases hb : Lexer.backup l₁ with
        | error err => rw [hb] at h; simp at h
        | ok l₂ =>
          rw [hb] at h
          simp at h
          obtain ⟨he, -⟩ := h
          subst he
          exact hleft
      · rw [if_neg hc] at h
        cases hp : parseMulDivExpr f l₁ with
        | error err => rw [hp] at h; simp at h
        | ok v2 =>
          obtain ⟨right, l₂⟩ := v2
          rw [hp] at h
          simp only [] at h
          refine ih (.BinaryExpression left tok right left.Pos) l₂ e l' ?_ h
          have hright := OpsValid_parseMulDivExpr f l₁ right l₂ hp
          push_neg at hc
          simp only [OpsValid, Bool.and_eq_true, Bool.or_eq_true, beq_iff_eq]
          refine ⟨⟨?_, hleft⟩, hright⟩
          by_cases h1 : tok = ADD
          · exact Or.inl (Or.inl (Or.inl h1))
          · exact Or.inl (Or.inl (Or.inr (hc h1)))

/-- A successful `parseAddSubExpr` satisfies the operator-tag
invariant. -/
theorem OpsValid_parseAddSubExpr (fuel : Nat) (l : Lexer) (e : Expression) (l' : Lexer)
    (h : parseAddSubExpr fuel l = .ok (e, l')) : OpsValid e = true := by
  cases fuel with
  | zero => simp [parseAddSubExpr] at h
  | succ f =>
    cases hp : parseMulDivExpr f l with
    | error err => simp [parseAddSubExpr, hp] at h
    | ok v =>
      obtain ⟨left, l₁⟩ := v
      simp only [parseAddSubExpr, hp] at h
      exact OpsValid_parseAddSubLoop f left l₁ e l' (OpsValid_parseMulDivExpr f l left l₁ hp) h

/-- C9: every AST returned by the parser consists of integer-literal
leaves and binary nodes whose operator is one of `ADD`, `SUB`, `MUL`,
`DIV`; consequently, when the evaluator fails on such an AST its
message can only be "division by zero" — the "unknown operator" branch
(and, the node type being a closed sum, the "unknown expression type"
branch) is unreachable. -/
theorem parser_ast_ops_valid_eval_no_unknown (fuel : Nat) (l : Lexer) (e : Expression) (l' : Lexer)
    (h : parseExpression fuel l = .ok (e, l')) :
    OpsValid e = true ∧ ∀ msg, evaluateExpression e = .error msg → msg = "division by zero" := by
  unfold parseExpression at h
  have he := OpsValid_parseAddSubExpr fuel l e l' h
  exact ⟨he, OpsValid_eval e he⟩

/-- C9 witness: the parse of `1+2&` succeeds and its AST satisfies the
operator-tag invariant. -/
theorem parser_ast_ops_valid_eval_no_unknown_witness :
    OpsValid (.BinaryExpression (.IntegerLiteral 1 ⟨1, 1⟩) ADD (.IntegerLiteral 2 ⟨1, 3⟩) ⟨1, 1⟩) = true :=
  (parser_ast_ops_valid_eval_no_unknown 32 (NewLexer "1+2&".toList)
    (.BinaryExpression (.IntegerLiteral 1 ⟨1, 1⟩) ADD (.IntegerLiteral 2 ⟨1, 3⟩) ⟨1, 1⟩)
    ⟨['&'], none, ⟨1, 3⟩⟩ rfl).1

/-- C10: whenever the lexer hands back an `INT` token,
`parsePrimaryExpr` succeeds unconditionally — it uses the first
component of the `Atoi` result and discards the error component — and
for an all-digit literal whose value exceeds the machine range the
discarded component was a range error while the used component is the
clamped `MaxInt64`. -/
theorem parsePrimaryExpr_int_never_fails_clamped (fuel : Nat) (l l' : Lexer) (lit : List Char)
    (h : Lexer.Lex fuel l = .ok (INT, lit, l')) :
    parsePrimaryExpr fuel l =
      .ok (.IntegerLiteral (Atoi lit).1 { line := l'.pos.line, column := l'.pos.column }, l') ∧
    (lit ≠ [] → lit.all unicodeIsDigit = true → maxInt64 < (digitsVal lit : Int) →
      (Atoi lit).1 = maxInt64 ∧ (Atoi lit).2 = some "value out of range") := by
  constructor
  · simp [parsePrimaryExpr, h]
  · intro h1 h2 h3
    rw [Atoi, if_neg h1, if_pos h2, if_neg (not_le.mpr h3)]
    exact ⟨rfl, rfl⟩

/-- C10 witness: the 19-digit literal `9223372036854775808` (one past
`MaxInt64`) still parses to a leaf, carrying the clamped value
`9223372036854775807`. -/
theorem parsePrimaryExpr_int_never_fails_clamped_witness :
    parsePrimaryExpr 25 (NewLexer "9223372036854775808".toList) =
      .ok (.IntegerLiteral 9223372036854775807 ⟨1, 19⟩, ⟨[], none, ⟨1, 19⟩⟩) := by
  have h := (parsePrimaryExpr_int_never_fails_clamped 25 (NewLexer "9223372036854775808".toList)
    ⟨[], none, ⟨1, 19⟩⟩ "9223372036854775808".toList rfl).1
  exact h
